import Mathlib

/-!
Shallow embedding of the batch-distillation pipeline found in
src/quarantine (create_batches_by_count, create_batches_by_greedy_size,
create_balanced_batches, run_distillation_round, main).  File handles carry
their on-disk byte size; the Python heapq module is embedded operation by
operation so that create_balanced_batches follows the source exactly.
-/

namespace Distill

/-- A file handle: a path together with its on-disk byte size
(p.stat().st_size in the source, constant for the duration of a round). -/
structure FileH where
  path : String
  size : Nat
deriving DecidableEq

/-- Descending-by-size order on (path, size) pairs, as produced by
files_with_sizes.sort(key=lambda x: x[1], reverse=True): a stable sort
that puts larger sizes first and keeps the original order on ties. -/
def sizeDescSnd (a b : FileH × Nat) : Prop := b.2 ≤ a.2

instance : DecidableRel sizeDescSnd := fun a b => Nat.decLe b.2 a.2

/-- Descending-by-size order on (size, path) pairs, as produced by
sized_files.sort(reverse=True, key=lambda t: t[0]). -/
def sizeDescFst (a b : Nat × FileH) : Prop := b.1 ≤ a.1

instance : DecidableRel sizeDescFst := fun a b => Nat.decLe b.1 a.1

/-- create_batches_by_count: [file_list[i:i + batch_size] for i in
range(0, len(file_list), batch_size)] (empty list for empty input).
For batch_size ≥ 1, range(0, n, batch_size) has ceil(n / batch_size)
steps i*batch_size and each slice is drop/take. -/
def createBatchesByCount (fileList : List FileH) (batchSize : Nat) : List (List FileH) :=
  if fileList.isEmpty then []
  else
    (List.range ((fileList.length + batchSize - 1) / batchSize)).map
      (fun i => (fileList.drop (i * batchSize)).take batchSize)

/-- One step of the greedy packing loop in create_batches_by_greedy_size:
state is (all_batches, current_batch, current_batch_size); if the current
batch is non-empty and would overflow max_size_bytes, flush it, then append
the file to the current batch. -/
def greedyStep (maxSizeBytes : Nat) (st : List (List FileH) × List FileH × Nat)
    (ps : FileH × Nat) : List (List FileH) × List FileH × Nat :=
  let flushed :=
    if !st.2.1.isEmpty && decide (maxSizeBytes < st.2.2 + ps.2) then
      (st.1 ++ [st.2.1], ([] : List FileH), 0)
    else st
  (flushed.1, flushed.2.1 ++ [ps.1], flushed.2.2 + ps.2)

/-- One step of the isolation loop of create_batches_by_greedy_size: a
file at or above the large-file threshold becomes its own singleton batch,
the others are queued in files_to_pack. -/
def splitLargeStep (largeFileBytes : Nat)
    (acc : List (List FileH) × List (FileH × Nat)) (ps : FileH × Nat) :
    List (List FileH) × List (FileH × Nat) :=
  if largeFileBytes ≤ ps.2 then (acc.1 ++ [[ps.1]], acc.2)
  else (acc.1, acc.2 ++ [ps])

/-- create_batches_by_greedy_size: sort (path, size) pairs descending by
size; files with size ≥ large_file_threshold_kb*1024 become singleton
batches; the rest are packed greedily against max_batch_size_kb*1024; a
trailing non-empty current batch is appended. -/
def createBatchesByGreedySize (fileList : List FileH)
    (maxBatchSizeKb largeFileThresholdKb : Nat) : List (List FileH) :=
  if fileList.isEmpty then []
  else
    let maxSizeBytes := maxBatchSizeKb * 1024
    let largeFileBytes := largeFileThresholdKb * 1024
    let filesWithSizes :=
      List.insertionSort sizeDescSnd (fileList.map (fun p => (p, p.size)))
    let split := filesWithSizes.foldl (splitLargeStep largeFileBytes) ([], [])
    if split.2.isEmpty then split.1
    else
      let packed := split.2.foldl (greedyStep maxSizeBytes) (split.1, [], 0)
      if packed.2.1.isEmpty then packed.1 else packed.1 ++ [packed.2.1]

/-- A bin of the balanced (worst-fit-decreasing) packer: the _Bin helper
class, ordered by size only (its only comparison method is
a.size < b.size). -/
structure Bin where
  paths : List FileH
  size : Nat
deriving DecidableEq

/-- The _Bin less-than used by heapq: compares sizes only. -/
def binLt (a b : Bin) : Bool := decide (a.size < b.size)

/-- The empty bin, also used as the out-of-range default of array reads
(every read in the algorithm is in range). -/
def emptyBin : Bin := ⟨[], 0⟩

/-- heapq._siftdown(heap, startpos, pos) with newitem = heap[pos] read
before the loop: while pos > startpos, compare newitem with the parent,
move the parent down while newitem is smaller, finally store newitem.
The fuel is the starting pos; pos strictly decreases each iteration, so
the fuel is never exhausted in a real run. -/
def siftdownGo : Nat → Nat → Bin → Array Bin → Nat → Array Bin
  | 0, _, newitem, heap, pos => heap.setD pos newitem
  | fuel + 1, startpos, newitem, heap, pos =>
    if startpos < pos then
      let parentpos := (pos - 1) / 2
      let parent := heap.getD parentpos emptyBin
      if binLt newitem parent then
        siftdownGo fuel startpos newitem (heap.setD pos parent) parentpos
      else heap.setD pos newitem
    else heap.setD pos newitem

/-- heapq._siftdown(heap, startpos, pos). -/
def siftdownFrom (heap : Array Bin) (startpos pos : Nat) : Array Bin :=
  siftdownGo pos startpos (heap.getD pos emptyBin) heap pos

/-- heapq._siftup(heap, pos) main loop: bubble the smaller child up until
a leaf is reached, then store newitem and call _siftdown.  The child index
picks the right child when the left child is not < the right child.  The
fuel bounds the number of iterations (pos strictly increases below
endpos), so heap.size is always enough fuel. -/
def siftupGo : Nat → Nat → Nat → Bin → Array Bin → Nat → Array Bin
  | 0, startpos, _, newitem, heap, pos =>
    siftdownGo pos startpos newitem (heap.setD pos newitem) pos
  | fuel + 1, startpos, endpos, newitem, heap, pos =>
    let childpos := 2 * pos + 1
    if childpos < endpos then
      let rightpos := childpos + 1
      let childpos :=
        if rightpos < endpos &&
            !(binLt (heap.getD childpos emptyBin) (heap.getD rightpos emptyBin)) then
          rightpos
        else childpos
      siftupGo fuel startpos endpos newitem
        (heap.setD pos (heap.getD childpos emptyBin)) childpos
    else siftdownGo pos startpos newitem (heap.setD pos newitem) pos

/-- heapq._siftup(heap, pos). -/
def siftupFrom (heap : Array Bin) (pos : Nat) : Array Bin :=
  siftupGo heap.size pos heap.size (heap.getD pos emptyBin) heap pos

/-- heapq.heappush(heap, item): append then _siftdown(heap, 0, len-1). -/
def heappush (heap : Array Bin) (item : Bin) : Array Bin :=
  let heap := heap.push item
  siftdownGo (heap.size - 1) 0 item heap (heap.size - 1)

/-- heapq.heappop(heap): pop the last element; if the heap is still
non-empty, take heap[0] as the return value, move the last element to the
root and _siftup(heap, 0); otherwise return the last element.  (The source
never pops an empty heap.) -/
def heappop (heap : Array Bin) : Bin × Array Bin :=
  let lastelt := heap.getD (heap.size - 1) emptyBin
  let heap := heap.pop
  if heap.size ≠ 0 then
    let returnitem := heap.getD 0 emptyBin
    (returnitem, siftupFrom (heap.setD 0 lastelt) 0)
  else (lastelt, heap)

/-- heapq.heapify(x): for i in reversed(range(n//2)): _siftup(x, i). -/
def heapifyGo : Array Bin → Nat → Array Bin
  | heap, 0 => heap
  | heap, i + 1 => heapifyGo (siftupFrom heap i) i

/-- heapq.heapify(x). -/
def heapifyArr (heap : Array Bin) : Array Bin := heapifyGo heap (heap.size / 2)

/-- One iteration of the placement loop of create_balanced_batches:
pop the smallest bin; if it already holds max_files_per_batch files, push
a fresh bin holding just this file (the popped bin is not pushed back);
otherwise add the file to the popped bin and push it back. -/
def balancedStep (maxFilesPerBatch : Nat) (bins : Array Bin)
    (sp : Nat × FileH) : Array Bin :=
  let popped := heappop bins
  let smallestBin := popped.1
  let bins := popped.2
  if maxFilesPerBatch ≤ smallestBin.paths.length then
    heappush bins ⟨[sp.2], sp.1⟩
  else
    heappush bins ⟨smallestBin.paths ++ [sp.2], smallestBin.size + sp.1⟩

/-- create_balanced_batches: sort (size, path) pairs descending by size,
heapify num_batches = max 1 (ceil(n / max_files_per_batch)) empty bins,
run the placement loop, and return the paths of the non-empty bins. -/
def createBalancedBatches (fileList : List FileH)
    (maxFilesPerBatch : Nat) : List (List FileH) :=
  if fileList.isEmpty then []
  else
    let sizedFiles :=
      List.insertionSort sizeDescFst (fileList.map (fun p => (p.size, p)))
    let numBatches := max 1 ((fileList.length + maxFilesPerBatch - 1) / maxFilesPerBatch)
    let bins := heapifyArr (Array.mkArray numBatches emptyBin)
    let bins := sizedFiles.foldl (balancedStep maxFilesPerBatch) bins
    (bins.toList.filter (fun b => !b.paths.isEmpty)).map Bin.paths

/-- The deterministic per-batch artifact name
round_{round_number}_batch_{batch_number}.txt. -/
def artifactName (r b : Nat) : String :=
  "round_" ++ toString r ++ "_batch_" ++ toString b ++ ".txt"

/-- The fixed final summary name the pipeline moves the surviving file to. -/
def finalName : String := "ULTRA_DISTILLED_SUMMARY.txt"

/-- The artifacts appended during the submission loop for batches that are
skipped: batch i+1 is skipped when args.resume holds and its expected
output already exists (run_distillation_round, submission loop). -/
def skippedNames (resume : Bool) (r n : Nat) (fs : List String) : List String :=
  ((List.range n).filter (fun i => resume && fs.contains (artifactName r (i + 1)))).map
    (fun i => artifactName r (i + 1))

/-- The indices of the batches actually submitted to the worker pool
(those not skipped by the resume check). -/
def submittedIdx (resume : Bool) (r n : Nat) (fs : List String) : List Nat :=
  (List.range n).filter (fun i => !(resume && fs.contains (artifactName r (i + 1))))

/-- The collection loop over completed futures, linearized in completion
order: each completed batch i made one external call; on success its
artifact is written and collected; on the first failure the executor
cancels the remaining queued work and the round returns None (the calls
counter counts external invocations). -/
def execPhase (succ : Nat → Bool) (r : Nat) :
    List Nat → List String → List String → Nat →
    Option (List String) × List String × Nat
  | [], fs, outs, calls => (some outs, fs, calls)
  | i :: rest, fs, outs, calls =>
    if succ i then
      execPhase succ r rest (fs ++ [artifactName r (i + 1)])
        (outs ++ [artifactName r (i + 1)]) (calls + 1)
    else (none, fs, calls + 1)

/-- sorted(output_files, key=lambda p: p.name): a stable sort of the
collected artifact names in lexicographic string order. -/
def sortedByName (l : List String) : List String :=
  List.insertionSort (fun a b : String => a ≤ b) l

/-- run_distillation_round for a round with n batches: the submission loop
skips batches whose artifact exists (when resuming), the worker pool
completes the submitted batches in the given completion order, and on
success the collected artifacts are returned sorted by name.  The result
is (returned value, file system afterwards, number of external calls). -/
def runDistillationRound (resume : Bool) (succ : Nat → Bool) (r n : Nat)
    (fs : List String) (order : List Nat) :
    Option (List String) × List String × Nat :=
  match execPhase succ r order fs (skippedNames resume r n fs) 0 with
  | (none, fs', calls) => (none, fs', calls)
  | (some outs, fs', calls) => (some (sortedByName outs), fs', calls)

/-- Result of the while-loop of main: the loop exits with the final file
list and round counter, aborts when a round returns None, or (in the
model only) runs out of fuel. -/
inductive LoopResult where
  | exited (files : List String) (roundCount : Nat)
  | aborted (roundCount : Nat)
  | outOfFuel
deriving DecidableEq

/-- The while len(current_files) > 1 loop of main, for batch_mode='count'
with batch size k, with per-round success oracle succ and in-order
completion of the submitted batches.  Each successful round feeds its
sorted outputs into the next round and increments round_count. -/
def mainLoopC (k : Nat) (resume : Bool) (succ : Nat → Nat → Bool) :
    Nat → List String → List String → Nat → LoopResult
  | 0, _, _, _ => .outOfFuel
  | fuel + 1, files, fs, rc =>
    if files.length ≤ 1 then .exited files rc
    else
      let n := (createBatchesByCount (files.map (fun s => ⟨s, 0⟩)) k).length
      match runDistillationRound resume (succ rc) rc n fs (submittedIdx resume rc n fs) with
      | (none, _, _) => .aborted rc
      | (some outs, fs', _) => mainLoopC k resume succ fuel outs fs' (rc + 1)

/-- What main does after the loop: the surviving file is moved to the
final summary name only when exactly one file remains and round_count > 1;
with exactly one file and round_count == 1 (a single initial file, no
round ran) only an informational message is printed and nothing is moved. -/
inductive MainResult where
  | movedFinal (name : String)
  | singleNoMove
  | abortedRun
  | otherExit
  | outOfFuel
deriving DecidableEq

/-- The final if/elif chain of main. -/
def finalPhase (files : List String) (roundCount : Nat) : MainResult :=
  if files.length = 1 && decide (1 < roundCount) then .movedFinal finalName
  else if files.length = 1 && roundCount == 1 then .singleNoMove
  else .otherExit

/-- The whole pipeline after file discovery: run the reduction loop
starting at round_count = 1, then the final move/report phase. -/
def distillMain (k : Nat) (resume : Bool) (succ : Nat → Nat → Bool)
    (fuel : Nat) (files fs : List String) : MainResult :=
  match mainLoopC k resume succ fuel files fs 1 with
  | .exited f rc => finalPhase f rc
  | .aborted _ => .abortedRun
  | .outOfFuel => .outOfFuel

/-- A file on disk for the output-directory preparation model: a path as
a list of components, plus its content.  Directories are represented by
the files beneath them. -/
structure FsFile where
  fpath : List String
  content : String
deriving DecidableEq

/-- shutil.rmtree(output_path): every file under the directory tree is
removed. -/
def rmtree (out : List String) (fs : List FsFile) : List FsFile :=
  fs.filter (fun e => !(out.isPrefixOf e.fpath))

/-- The output-directory preparation in main: with --resume the directory
is kept as is (os.makedirs(exist_ok=True)); without it an existing
directory tree is deleted and recreated empty (shutil.rmtree +
os.makedirs). -/
def prepareOutputDir (resume : Bool) (out : List String) (fs : List FsFile) :
    List FsFile :=
  if resume then fs else rmtree out fs

/-- Total byte size of a batch, as sum(p.stat().st_size for p in batch). -/
def batchTotal (b : List FileH) : Nat := (b.map FileH.size).sum

section CountLemmas

lemma ceil_div_succ {n k : Nat} (hk : 1 ≤ k) (hn : 1 ≤ n) :
    (n + k - 1) / k = (n - k + k - 1) / k + 1 := by
  rcases Nat.le_total k n with h | h
  · have e : n + k - 1 = (n - k + k - 1) + k := by omega
    rw [e, Nat.add_div_right _ (by omega)]
  · have e : n - k = 0 := by omega
    rw [e]
    have h4 : (0 + k - 1) / k = 0 := Nat.div_eq_of_lt (by omega)
    have h12 : (n + k - 1) / k = 1 := by
      have h1 : 1 ≤ (n + k - 1) / k :=
        (Nat.le_div_iff_mul_le (by omega)).mpr (by omega)
      have h2 : (n + k - 1) / k < 2 :=
        (Nat.div_lt_iff_lt_mul (by omega)).mpr (by omega)
      omega
    rw [h12, h4]

lemma createBatchesByCount_body (l : List FileH) (k : Nat) :
    ((List.range ((l.length + k - 1) / k)).map
        (fun i => (l.drop (i * k)).take k)).flatten =
      (createBatchesByCount l k).flatten := by
  rw [createBatchesByCount]
  by_cases h : l.isEmpty
  · have : l = [] := List.isEmpty_iff.mp h
    subst this
    simp only [h, if_true]
    have : (0 + k - 1) / k = 0 := by
      rcases Nat.eq_zero_or_pos k with hk | hk

      · simp [hk]
      · rw [Nat.div_eq_of_lt (by omega)]
    simp [this]
  · simp [h]

lemma createBatchesByCount_flatten_aux (k : Nat) (hk : 1 ≤ k) :
    ∀ (n : Nat) (l : List FileH), l.length ≤ n →
      (createBatchesByCount l k).flatten = l := by
  intro n
  induction n with
  | zero =>
    intro l hl
    have : l = [] := List.eq_nil_of_length_eq_zero (by omega)
    subst this
    simp [createBatchesByCount]
  | succ n ih =>
    intro l hl
    by_cases hne : l.isEmpty
    · have : l = [] := List.isEmpty_iff.mp hne
      subst this
      simp [createBatchesByCount]
    · have hlen : 1 ≤ l.length := by
        cases l with
        | nil => simp at hne
        | cons a t => simp
      rw [createBatchesByCount, if_neg (by simp [hne])]
      rw [ceil_div_succ hk hlen]
      have hdl : (l.drop k).length = l.length - k := by simp
      rw [List.range_succ_eq_map, List.map_cons, List.flatten_cons, List.map_map]
      have hfun :
          ((fun i => (l.drop (i * k)).take k) ∘ Nat.succ) =
            (fun i => ((l.drop k).drop (i * k)).take k) := by
        funext i
        simp only [Function.comp]
        rw [List.drop_drop]
        have : Nat.succ i * k = k + i * k := by
          rw [Nat.succ_mul]; omega
        rw [this]
      rw [hfun]
      have hbody :
          ((List.range (((l.drop k).length + k - 1) / k)).map
              (fun i => ((l.drop k).drop (i * k)).take k)).flatten = l.drop k := by
        rw [createBatchesByCount_body]
        exact ih (l.drop k) (by omega)
      rw [hdl] at hbody
      rw [Nat.zero_mul, List.drop_zero, hbody]
      exact List.take_append_drop k l

lemma createBatchesByCount_flatten (l : List FileH) (k : Nat) (hk : 1 ≤ k) :
    (createBatchesByCount l k).flatten = l :=
  createBatchesByCount_flatten_aux k hk l.length l (Nat.le_refl _)

lemma createBatchesByCount_length (l : List FileH) (k : Nat) :
    (createBatchesByCount l k).length =
      if l.isEmpty then 0 else (l.length + k - 1) / k := by
  by_cases h : l.isEmpty <;> simp [createBatchesByCount, h]

lemma createBatchesByCount_length_lt (l : List FileH) (k : Nat)
    (hk : 2 ≤ k) (hl : 2 ≤ l.length) :
    (createBatchesByCount l k).length < l.length := by
  have hne : l.isEmpty = false := by
    cases l with
    | nil => simp at hl
    | cons a t => simp
  rw [createBatchesByCount_length, hne, if_neg (by simp)]
  rw [Nat.div_lt_iff_lt_mul (by omega)]
  obtain ⟨k', rfl⟩ : ∃ k', k = k' + 1 := ⟨k - 1, by omega⟩
  have e : l.length * (k' + 1) = l.length * k' + l.length := by
    rw [Nat.mul_succ]
  have h1 : 2 * k' ≤ l.length * k' := Nat.mul_le_mul_right _ (by omega)
  omega

lemma createBatchesByCount_length_pos (l : List FileH) (k : Nat)
    (hk : 1 ≤ k) (hl : 1 ≤ l.length) :
    1 ≤ (createBatchesByCount l k).length := by
  have hne : l.isEmpty = false := by
    cases l with
    | nil => simp at hl
    | cons a t => simp
  rw [createBatchesByCount_length, hne, if_neg (by simp)]
  rw [Nat.le_div_iff_mul_le (by omega)]
  omega

end CountLemmas

section GreedyLemmas

lemma flatten_map_singleton {α β : Type} (f : α → β) (l : List α) :
    ((l.map (fun x => [f x])).flatten) = l.map f := by
  induction l with
  | nil => rfl
  | cons a t ih => simp [ih]

lemma splitLarge_spec (L : Nat) :
    ∀ (ps : List (FileH × Nat)) (acc : List (List FileH) × List (FileH × Nat)),
      ps.foldl (splitLargeStep L) acc =
        (acc.1 ++ (ps.filter (fun x => decide (L ≤ x.2))).map (fun x => [x.1]),
         acc.2 ++ ps.filter (fun x => !decide (L ≤ x.2))) := by
  intro ps
  induction ps with
  | nil => intro acc; simp
  | cons p rest ih =>
    intro acc
    by_cases h : L ≤ p.2
    · simp [List.foldl_cons, splitLargeStep, h, ih, List.filter_cons]
    · simp [List.foldl_cons, splitLargeStep, h, ih, List.filter_cons]

lemma greedy_packFlat (M : Nat) :
    ∀ (ps : List (FileH × Nat)) (st : List (List FileH) × List FileH × Nat),
      ((ps.foldl (greedyStep M) st).1).flatten ++ (ps.foldl (greedyStep M) st).2.1 =
        st.1.flatten ++ st.2.1 ++ ps.map (fun x => x.1) := by
  intro ps
  induction ps with
  | nil => intro st; simp
  | cons p rest ih =>
    intro st
    rw [List.foldl_cons, ih]
    by_cases hc : (!st.2.1.isEmpty && decide (M < st.2.2 + p.2)) = true
    · simp [greedyStep, hc]
    · simp [greedyStep, hc]

lemma greedy_pack_prefix (M : Nat) :
    ∀ (ps : List (FileH × Nat)) (st : List (List FileH) × List FileH × Nat),
      ∃ ext, (ps.foldl (greedyStep M) st).1 = st.1 ++ ext := by
  intro ps
  induction ps with
  | nil => intro st; exact ⟨[], by simp⟩
  | cons p rest ih =>
    intro st
    obtain ⟨ext, he⟩ := ih (greedyStep M st p)
    by_cases hc : (!st.2.1.isEmpty && decide (M < st.2.2 + p.2)) = true
    · exact ⟨[st.2.1] ++ ext, by rw [List.foldl_cons, he]; simp [greedyStep, hc]⟩
    · exact ⟨ext, by rw [List.foldl_cons, he]; simp [greedyStep, hc]⟩

lemma greedy_pack_elem {P : FileH → Prop} (M : Nat) :
    ∀ (ps : List (FileH × Nat)) (st : List (List FileH) × List FileH × Nat),
      (∀ p ∈ ps, P p.1) → (∀ x ∈ st.2.1, P x) →
      (∀ b ∈ (ps.foldl (greedyStep M) st).1, b ∈ st.1 ∨ ∀ x ∈ b, P x) ∧
        (∀ x ∈ (ps.foldl (greedyStep M) st).2.1, P x) := by
  intro ps
  induction ps with
  | nil =>
    intro st _ hcur
    exact ⟨fun b hb => Or.inl hb, hcur⟩
  | cons p rest ih =>
    intro st hps hcur
    have hp : P p.1 := hps p (by simp)
    have hrest : ∀ q ∈ rest, P q.1 := fun q hq => hps q (by simp [hq])
    by_cases hc : (!st.2.1.isEmpty && decide (M < st.2.2 + p.2)) = true
    · have hstep : greedyStep M st p = (st.1 ++ [st.2.1], [p.1], p.2) := by
        simp [greedyStep, hc]
      have hcur' : ∀ x ∈ ([p.1] : List FileH), P x := by
        intro x hx
        simp at hx
        subst hx
        exact hp
      obtain ⟨h1, h2⟩ := ih (greedyStep M st p) hrest (by rw [hstep]; exact hcur')
      refine ⟨fun b hb => ?_, h2⟩
      rcases h1 b hb with hin | hall
      · rw [hstep] at hin
        rcases List.mem_append.mp hin with h | h
        · exact Or.inl h
        · refine Or.inr ?_
          have : b = st.2.1 := by simpa using h
          subst this
          exact hcur
      · exact Or.inr hall
    · have hstep : greedyStep M st p = (st.1, st.2.1 ++ [p.1], st.2.2 + p.2) := by
        simp [greedyStep, hc]
      have hcur' : ∀ x ∈ st.2.1 ++ [p.1], P x := by
        intro x hx
        rcases List.mem_append.mp hx with h | h
        · exact hcur x h
        · have : x = p.1 := by simpa using h
          subst this
          exact hp
      obtain ⟨h1, h2⟩ := ih (greedyStep M st p) hrest (by rw [hstep]; exact hcur')
      refine ⟨fun b hb => ?_, h2⟩
      rcases h1 b hb with hin | hall
      · rw [hstep] at hin
        exact Or.inl hin
      · exact Or.inr hall

lemma greedy_pack_good (M : Nat) :
    ∀ (ps : List (FileH × Nat)) (st : List (List FileH) × List FileH × Nat),
      (∀ p ∈ ps, p.2 = p.1.size) →
      (∀ b ∈ st.1, batchTotal b ≤ M ∨ b.length = 1) →
      st.2.2 = batchTotal st.2.1 →
      (batchTotal st.2.1 ≤ M ∨ st.2.1.length = 1) →
      (∀ b ∈ (ps.foldl (greedyStep M) st).1, batchTotal b ≤ M ∨ b.length = 1) ∧
        (batchTotal (ps.foldl (greedyStep M) st).2.1 ≤ M ∨
          (ps.foldl (greedyStep M) st).2.1.length = 1) := by
  intro ps
  induction ps with
  | nil =>
    intro st _ hb _ hcur
    exact ⟨hb, hcur⟩
  | cons p rest ih =>
    intro st hps hb hsz hcur
    have hp : p.2 = p.1.size := hps p (by simp)
    have hrest : ∀ q ∈ rest, q.2 = q.1.size := fun q hq => hps q (by simp [hq])
    by_cases hc : (!st.2.1.isEmpty && decide (M < st.2.2 + p.2)) = true
    · have hstep : greedyStep M st p = (st.1 ++ [st.2.1], [p.1], p.2) := by
        simp [greedyStep, hc]
      refine ih (greedyStep M st p) hrest ?_ ?_ ?_ <;> rw [hstep]
      · intro b hbm
        rcases List.mem_append.mp hbm with h | h
        · exact hb b h
        · have : b = st.2.1 := by simpa using h
          subst this
          exact hcur
      · simp [batchTotal, hp]
      · exact Or.inr rfl
    · have hstep : greedyStep M st p = (st.1, st.2.1 ++ [p.1], st.2.2 + p.2) := by
        simp [greedyStep, hc]
      have hnc : st.2.1.isEmpty = true ∨ st.2.2 + p.2 ≤ M := by
        rcases Bool.and_eq_false_iff.mp (Bool.eq_false_iff.mpr hc) with h | h
        · left
          cases he : st.2.1.isEmpty
          · rw [he] at h; simp at h
          · rfl
        · right
          have := of_decide_eq_false h
          omega
      have hsz' : st.2.2 + p.2 = batchTotal (st.2.1 ++ [p.1]) := by
        simp [batchTotal, hsz, hp]
      have hcur' : batchTotal (st.2.1 ++ [p.1]) ≤ M ∨ (st.2.1 ++ [p.1]).length = 1 := by
        rcases hnc with h | h
        · have hnil : st.2.1 = [] := List.isEmpty_iff.mp h
          rw [hnil]
          exact Or.inr rfl
        · left
          omega
      have := ih (st.1, st.2.1 ++ [p.1], st.2.2 + p.2) hrest hb hsz' hcur'
      rw [List.foldl_cons, hstep]
      exact this

lemma map_fst_pairs (l : List FileH) :
    (l.map (fun p => (p, p.size))).map (fun x : FileH × Nat => x.1) = l := by
  induction l with
  | nil => rfl
  | cons a t ih => simp only [List.map_cons, ih]

lemma sorted_pairs_size (fileList : List FileH)
    (x : FileH × Nat)
    (hx : x ∈ List.insertionSort sizeDescSnd (fileList.map (fun p => (p, p.size)))) :
    x.2 = x.1.size := by
  have hx' : x ∈ fileList.map (fun p => (p, p.size)) :=
    (List.mem_insertionSort sizeDescSnd).mp hx
  obtain ⟨q, _, rfl⟩ := List.mem_map.mp hx'
  rfl

lemma createBatchesByGreedySize_flatten_perm (fileList : List FileH)
    (maxKb largeKb : Nat) :
    ((createBatchesByGreedySize fileList maxKb largeKb).flatten).Perm fileList := by
  by_cases hemp : fileList.isEmpty
  · have : fileList = [] := List.isEmpty_iff.mp hemp
    subst this
    simp [createBatchesByGreedySize]
  · simp only [createBatchesByGreedySize, hemp, Bool.false_eq_true, if_false]
    rw [splitLarge_spec]
    set L := largeKb * 1024 with hL
    set M := maxKb * 1024 with hM
    set sorted := List.insertionSort sizeDescSnd (fileList.map (fun p => (p, p.size)))
      with hsorted
    set larges := sorted.filter (fun x => decide (L ≤ x.2)) with hlarges
    set smalls := sorted.filter (fun x => !decide (L ≤ x.2)) with hsmalls
    simp only [List.nil_append]
    have hperm : (larges.map (fun x => x.1) ++ smalls.map (fun x => x.1)).Perm fileList := by
      have h1 : (larges ++ smalls).Perm sorted := List.filter_append_perm _ sorted
      have h2 : ((larges ++ smalls).map (fun x => x.1)).Perm (sorted.map (fun x => x.1)) :=
        h1.map _
      rw [List.map_append] at h2
      have h3 : (sorted.map (fun x => x.1)).Perm
          ((fileList.map (fun p => (p, p.size))).map (fun x => x.1)) :=
        (List.perm_insertionSort sizeDescSnd _).map _
      exact h2.trans (h3.trans (by rw [map_fst_pairs]))
    by_cases hsm : smalls.isEmpty
    · have hnil : smalls = [] := List.isEmpty_iff.mp hsm
      simp only [hsm, if_true]
      rw [flatten_map_singleton]
      rw [hnil] at hperm
      simpa using hperm
    · simp only [hsm, Bool.false_eq_true, if_false]
      have hflat := greedy_packFlat M smalls (larges.map (fun x => [x.1]), [], 0)
      set packed := smalls.foldl (greedyStep M) (larges.map (fun x => [x.1]), [], 0)
        with hpacked
      have hflat' : packed.1.flatten ++ packed.2.1 =
          larges.map (fun x => x.1) ++ smalls.map (fun x => x.1) := by
        rw [hflat]
        rw [flatten_map_singleton]
        simp
      by_cases hcur : packed.2.1.isEmpty
      · have hnil : packed.2.1 = [] := List.isEmpty_iff.mp hcur
        simp only [hcur, if_true]
        rw [hnil, List.append_nil] at hflat'
        rw [hflat']
        exact hperm
      · simp only [hcur, Bool.false_eq_true, if_false]
        rw [List.flatten_append]
        simp only [List.flatten_cons, List.flatten_nil, List.append_nil]
        rw [hflat']
        exact hperm

lemma createBatchesByGreedySize_budget (fileList : List FileH)
    (maxKb largeKb : Nat) (b : List FileH)
    (hb : b ∈ createBatchesByGreedySize fileList maxKb largeKb) :
    batchTotal b ≤ maxKb * 1024 ∨ b.length = 1 := by
  by_cases hemp : fileList.isEmpty
  · have : fileList = [] := List.isEmpty_iff.mp hemp
    subst this
    simp [createBatchesByGreedySize] at hb
  · simp only [createBatchesByGreedySize, hemp, Bool.false_eq_true, if_false] at hb
    rw [splitLarge_spec] at hb
    set L := largeKb * 1024 with hL
    set M := maxKb * 1024 with hM
    set sorted := List.insertionSort sizeDescSnd (fileList.map (fun p => (p, p.size)))
      with hsorted
    set larges := sorted.filter (fun x => decide (L ≤ x.2)) with hlarges
    set smalls := sorted.filter (fun x => !decide (L ≤ x.2)) with hsmalls
    simp only [List.nil_append] at hb
    by_cases hsm : smalls.isEmpty
    · simp only [hsm, if_true] at hb
      obtain ⟨x, _, rfl⟩ := List.mem_map.mp hb
      exact Or.inr rfl
    · simp only [hsm, Bool.false_eq_true, if_false] at hb
      have hsizes : ∀ p ∈ smalls, p.2 = p.1.size := by
        intro p hp
        exact sorted_pairs_size fileList p (List.mem_filter.mp hp).1
      have hinit : ∀ c ∈ larges.map (fun x => [x.1]), batchTotal c ≤ M ∨ c.length = 1 := by
        intro c hc
        obtain ⟨x, _, rfl⟩ := List.mem_map.mp hc
        exact Or.inr rfl
      have hgood := greedy_pack_good M smalls (larges.map (fun x => [x.1]), [], 0)
        hsizes hinit (by simp [batchTotal]) (Or.inl (by simp [batchTotal]))
      set packed := smalls.foldl (greedyStep M) (larges.map (fun x => [x.1]), [], 0)
        with hpacked
      by_cases hcur : packed.2.1.isEmpty
      · simp only [hcur, if_true] at hb
        exact hgood.1 b hb
      · simp only [hcur, Bool.false_eq_true, if_false] at hb
        rcases List.mem_append.mp hb with h | h
        · exact hgood.1 b h
        · have : b = packed.2.1 := by simpa using h
          subst this
          exact hgood.2

lemma createBatchesByGreedySize_isolates (fileList : List FileH)
    (maxKb largeKb : Nat) (p : FileH)
    (hp : p ∈ fileList) (hl : largeKb * 1024 ≤ p.size) :
    [p] ∈ createBatchesByGreedySize fileList maxKb largeKb ∧
      ∀ b ∈ createBatchesByGreedySize fileList maxKb largeKb, p ∈ b → b = [p] := by
  have hemp : fileList.isEmpty = false := by
    cases fileList with
    | nil => simp at hp
    | cons a t => simp
  simp only [createBatchesByGreedySize, hemp, Bool.false_eq_true, if_false]
  rw [splitLarge_spec]
  set L := largeKb * 1024 with hL
  set M := maxKb * 1024 with hM
  set sorted := List.insertionSort sizeDescSnd (fileList.map (fun p => (p, p.size)))
    with hsorted
  set larges := sorted.filter (fun x => decide (L ≤ x.2)) with hlarges
  set smalls := sorted.filter (fun x => !decide (L ≤ x.2)) with hsmalls
  simp only [List.nil_append]
  have hpair : (p, p.size) ∈ sorted := by
    rw [hsorted]
    exact (List.mem_insertionSort sizeDescSnd).mpr (List.mem_map.mpr ⟨p, hp, rfl⟩)
  have hplarge : (p, p.size) ∈ larges := by
    rw [hlarges]
    exact List.mem_filter.mpr ⟨hpair, by simpa using hl⟩
  have hpsingle : [p] ∈ larges.map (fun x => [x.1]) :=
    List.mem_map.mpr ⟨(p, p.size), hplarge, rfl⟩
  have hsmall_sizes : ∀ q ∈ smalls, q.1.size < L := by
    intro q hq
    have hmem := List.mem_filter.mp hq
    have hsz := sorted_pairs_size fileList q hmem.1
    have : ¬(L ≤ q.2) := by simpa using hmem.2
    omega
  by_cases hsm : smalls.isEmpty
  · simp only [hsm, if_true]
    refine ⟨hpsingle, ?_⟩
    intro b hb hpb
    obtain ⟨x, _, rfl⟩ := List.mem_map.mp hb
    have : p = x.1 := by simpa using hpb
    rw [this]
  · simp only [hsm, Bool.false_eq_true, if_false]
    have helem := greedy_pack_elem (P := fun x => x.size < L) M smalls
      (larges.map (fun x => [x.1]), [], 0)
      (fun q hq => hsmall_sizes q hq) (by intro x hx; simp at hx)
    have hpre := greedy_pack_prefix M smalls (larges.map (fun x => [x.1]), [], 0)
    set packed := smalls.foldl (greedyStep M) (larges.map (fun x => [x.1]), [], 0)
      with hpacked
    obtain ⟨ext, hext⟩ := hpre
    have hmem1 : [p] ∈ packed.1 := by
      rw [hext]
      exact List.mem_append.mpr (Or.inl hpsingle)
    have hsingles : ∀ b ∈ larges.map (fun x => [x.1]), p ∈ b → b = [p] := by
      intro b hb hpb
      obtain ⟨x, _, rfl⟩ := List.mem_map.mp hb
      have : p = x.1 := by simpa using hpb
      rw [this]
    have hbatch1 : ∀ b ∈ packed.1, p ∈ b → b = [p] := by
      intro b hb hpb
      rcases helem.1 b hb with hin | hall
      · exact hsingles b hin hpb
      · exact absurd (hall p hpb) (by omega)
    by_cases hcur : packed.2.1.isEmpty
    · simp only [hcur, if_true]
      exact ⟨hmem1, hbatch1⟩
    · simp only [hcur, Bool.false_eq_true, if_false]
      refine ⟨List.mem_append.mpr (Or.inl hmem1), ?_⟩
      intro b hb hpb
      rcases List.mem_append.mp hb with h | h
      · exact hbatch1 b h hpb
      · have : b = packed.2.1 := by simpa using h
        subst this
        exact absurd (helem.2 p hpb) (by omega)

end GreedyLemmas

section RoundLemmas

lemma execPhase_success (succ : Nat → Bool) (r : Nat) :
    ∀ (order : List Nat) (fs outs : List String) (c : Nat),
      (∀ i ∈ order, succ i = true) →
      execPhase succ r order fs outs c =
        (some (outs ++ order.map (fun i => artifactName r (i + 1))),
         fs ++ order.map (fun i => artifactName r (i + 1)), c + order.length) := by
  intro order
  induction order with
  | nil => intro fs outs c _; simp [execPhase]
  | cons i rest ih =>
    intro fs outs c h
    have hi : succ i = true := h i (by simp)
    rw [execPhase, if_pos hi, ih _ _ _ (fun j hj => h j (by simp [hj]))]
    simp only [List.map_cons, List.append_assoc, List.singleton_append, List.length_cons]
    refine congrArg₂ _ rfl (congrArg₂ _ rfl ?_)
    omega

lemma execPhase_failure (succ : Nat → Bool) (r : Nat) :
    ∀ (o₁ : List Nat) (i : Nat) (o₂ : List Nat) (fs outs : List String) (c : Nat),
      (∀ j ∈ o₁, succ j = true) → succ i = false →
      execPhase succ r (o₁ ++ i :: o₂) fs outs c =
        (none, fs ++ o₁.map (fun j => artifactName r (j + 1)), c + o₁.length + 1) := by
  intro o₁
  induction o₁ with
  | nil =>
    intro i o₂ fs outs c _ hi
    simp [execPhase, hi]
  | cons j rest ih =>
    intro i o₂ fs outs c h hi
    have hj : succ j = true := h j (by simp)
    rw [List.cons_append, execPhase, if_pos hj,
      ih i o₂ _ _ _ (fun x hx => h x (by simp [hx])) hi]
    simp only [List.map_cons, List.append_assoc, List.singleton_append, List.length_cons]
    refine congrArg₂ _ rfl (congrArg₂ _ rfl ?_)
    omega

lemma skipped_submitted_perm (resume : Bool) (r n : Nat) (fs : List String) :
    (skippedNames resume r n fs ++
        (submittedIdx resume r n fs).map (fun i => artifactName r (i + 1))).Perm
      ((List.range n).map (fun i => artifactName r (i + 1))) := by
  have h := List.filter_append_perm
    (fun i => resume && fs.contains (artifactName r (i + 1))) (List.range n)
  have h2 := h.map (fun i => artifactName r (i + 1))
  rw [List.map_append] at h2
  exact h2

lemma sortedByName_perm (l : List String) : (sortedByName l).Perm l :=
  List.perm_insertionSort _ l

lemma sortedByName_sorted (l : List String) :
    (sortedByName l).Sorted (fun a b : String => a ≤ b) :=
  List.sorted_insertionSort _ l

lemma sortedByName_eq_of_perm {l₁ l₂ : List String} (h : l₁.Perm l₂) :
    sortedByName l₁ = sortedByName l₂ :=
  List.eq_of_perm_of_sorted
    ((sortedByName_perm l₁).trans (h.trans (sortedByName_perm l₂).symm))
    (sortedByName_sorted l₁) (sortedByName_sorted l₂)

lemma runRound_success (resume : Bool) (succ : Nat → Bool) (r n : Nat)
    (fs : List String) (order : List Nat)
    (h : ∀ i ∈ order, succ i = true) :
    runDistillationRound resume succ r n fs order =
      (some (sortedByName (skippedNames resume r n fs ++
          order.map (fun i => artifactName r (i + 1)))),
       fs ++ order.map (fun i => artifactName r (i + 1)), order.length) := by
  rw [runDistillationRound, execPhase_success succ r order fs _ 0 h]
  simp

lemma names_in_fs_after (resume : Bool) (r n : Nat) (fs : List String) :
    ∀ i ∈ List.range n,
      artifactName r (i + 1) ∈
        fs ++ (submittedIdx resume r n fs).map (fun i => artifactName r (i + 1)) := by
  intro i hi
  by_cases hp : (resume && fs.contains (artifactName r (i + 1))) = true
  · have hc : fs.contains (artifactName r (i + 1)) = true :=
      (Bool.and_eq_true _ _).mp hp |>.2
    exact List.mem_append.mpr (Or.inl (List.elem_iff.mp hc))
  · refine List.mem_append.mpr (Or.inr ?_)
    refine List.mem_map.mpr ⟨i, ?_, rfl⟩
    refine List.mem_filter.mpr ⟨hi, ?_⟩
    rw [Bool.not_eq_true']
    exact Bool.eq_false_iff.mpr hp

lemma submitted_after_success (r n : Nat) (fs' : List String)
    (hall : ∀ i ∈ List.range n, fs'.contains (artifactName r (i + 1)) = true) :
    submittedIdx true r n fs' = [] := by
  rw [submittedIdx]
  refine List.filter_eq_nil_iff.mpr ?_
  intro i hi
  simp only [Bool.true_and, Bool.not_eq_true', Bool.not_eq_false]
  exact hall i hi

lemma skipped_after_success (r n : Nat) (fs' : List String)
    (hall : ∀ i ∈ List.range n, fs'.contains (artifactName r (i + 1)) = true) :
    skippedNames true r n fs' = (List.range n).map (fun i => artifactName r (i + 1)) := by
  rw [skippedNames]
  have : (List.range n).filter
      (fun i => true && fs'.contains (artifactName r (i + 1))) = List.range n :=
    List.filter_eq_self.mpr (fun i hi => by
      simp only [Bool.true_and]
      exact hall i hi)
  rw [this]

lemma runRound_success_length (resume : Bool) (succ : Nat → Bool) (r n : Nat)
    (fs : List String)
    (h : ∀ i ∈ submittedIdx resume r n fs, succ i = true) :
    ∃ outs,
      runDistillationRound resume succ r n fs (submittedIdx resume r n fs) =
        (some outs, fs ++ (submittedIdx resume r n fs).map (fun i => artifactName r (i + 1)),
         (submittedIdx resume r n fs).length) ∧
      outs.length = n := by
  refine ⟨_, runRound_success resume succ r n fs _ h, ?_⟩
  have h1 := (sortedByName_perm (skippedNames resume r n fs ++
    (submittedIdx resume r n fs).map (fun i => artifactName r (i + 1)))).length_eq
  have h2 := (skipped_submitted_perm resume r n fs).length_eq
  simp only [List.length_map, List.length_range] at h2
  omega

end RoundLemmas

section PipelineLemmas

lemma mainLoop_succeeds (k : Nat) (resume : Bool) (succ : Nat → Nat → Bool)
    (hk : 2 ≤ k) (hs : ∀ r i, succ r i = true) :
    ∀ (fuel : Nat) (files fs : List String) (rc : Nat),
      1 ≤ files.length → files.length ≤ fuel →
      ∃ f rc', mainLoopC k resume succ fuel files fs rc = .exited f rc' ∧
        f.length = 1 ∧ rc ≤ rc' ∧ (2 ≤ files.length → rc + 1 ≤ rc') := by
  intro fuel
  induction fuel with
  | zero => intro files fs rc h1 h2; omega
  | succ fuel ih =>
    intro files fs rc h1 h2
    by_cases hle : files.length ≤ 1
    · refine ⟨files, rc, ?_, by omega, Nat.le_refl _, by omega⟩
      simp [mainLoopC, hle]
    · have hgt : 2 ≤ files.length := by omega
      set mapped := files.map (fun s => (⟨s, 0⟩ : FileH)) with hmapped
      have hmlen : mapped.length = files.length := List.length_map _ _
      set n := (createBatchesByCount mapped k).length with hn
      have hnlt : n < files.length := by
        rw [hn, ← hmlen]
        exact createBatchesByCount_length_lt mapped k hk (by omega)
      have hnpos : 1 ≤ n := by
        rw [hn, ← hmlen] at *
        exact createBatchesByCount_length_pos mapped k (by omega) (by omega)
      obtain ⟨outs, heq, hlen⟩ := runRound_success_length resume (succ rc) rc n fs
        (fun i _ => hs rc i)
      obtain ⟨f, rc', hml, hf1, hrc1, hrc2⟩ := ih outs _ (rc + 1)
        (by omega) (by omega)
      refine ⟨f, rc', ?_, hf1, by omega, fun _ => by omega⟩
      simp only [mainLoopC, if_neg hle]
      rw [← hmapped, ← hn, heq]
      exact hml

lemma mainLoop_stuck_at_two (succ : Nat → Nat → Bool) (hs : ∀ r i, succ r i = true) :
    ∀ (fuel : Nat) (files fs : List String) (rc : Nat), files.length = 2 →
      mainLoopC 1 false succ fuel files fs rc = .outOfFuel := by
  intro fuel
  induction fuel with
  | zero => intro files fs rc _; rfl
  | succ fuel ih =>
    intro files fs rc h
    have hmlen : (files.map (fun s => (⟨s, 0⟩ : FileH))).length = 2 := by
      rw [List.length_map]; exact h
    have hne : (files.map (fun s => (⟨s, 0⟩ : FileH))).isEmpty = false := by
      cases hm : files.map (fun s => (⟨s, 0⟩ : FileH)) with
      | nil => rw [hm] at hmlen; simp at hmlen
      | cons a t => simp
    have hn : (createBatchesByCount (files.map (fun s => (⟨s, 0⟩ : FileH))) 1).length = 2 := by
      rw [createBatchesByCount_length, hne, if_neg (by simp), hmlen]
    obtain ⟨outs, heq, hlen⟩ := runRound_success_length false (succ rc) rc
      ((createBatchesByCount (files.map (fun s => (⟨s, 0⟩ : FileH))) 1).length) fs
      (fun i _ => hs rc i)
    simp only [mainLoopC]
    rw [if_neg (by omega : ¬ files.length ≤ 1), heq]
    exact ih outs _ (rc + 1) (by rw [hlen, hn])

end PipelineLemmas

section Claims

/-- C1: For every non-empty input file list and each of the three
partitioning modes, the returned batches form a partition of the input.
This HOLDS for count mode (the flattened batches are exactly the input,
hence pairwise disjoint for duplicate-free inputs) and for greedy-size
mode (the flattened batches are a permutation of the input), but it is
VIOLATED by the balanced mode as implemented: when the popped smallest
bin is already at the file-count cap, create_balanced_batches pushes a
fresh bin with the new file but never pushes the popped bin back, so that
bin and all its files are silently dropped.  On five files of sizes
[10, 9, 1, 1, 1] with max_files_per_batch = 2 the returned batches
contain only 3 of the 5 files. -/
theorem batch_partition_modes :
    (∀ (l : List FileH) (k : Nat), 1 ≤ k → (createBatchesByCount l k).flatten = l) ∧
    (∀ (l : List FileH) (k : Nat), 1 ≤ k → l.Nodup →
      (createBatchesByCount l k).Pairwise List.Disjoint) ∧
    (∀ (l : List FileH) (a b : Nat),
      ((createBatchesByGreedySize l a b).flatten).Perm l) ∧
    (∀ (l : List FileH) (a b : Nat), l.Nodup →
      (createBatchesByGreedySize l a b).Pairwise List.Disjoint) ∧
    (((createBalancedBatches [(⟨"v1.vtt", 10⟩ : FileH), ⟨"v2.vtt", 9⟩, ⟨"v3.vtt", 1⟩,
        ⟨"v4.vtt", 1⟩, ⟨"v5.vtt", 1⟩] 2).flatten).length = 3 ∧
      ([(⟨"v1.vtt", 10⟩ : FileH), ⟨"v2.vtt", 9⟩, ⟨"v3.vtt", 1⟩,
        ⟨"v4.vtt", 1⟩, ⟨"v5.vtt", 1⟩] : List FileH).length = 5) := by
  refine ⟨fun l k hk => createBatchesByCount_flatten l k hk, ?_, ?_, ?_, by decide, by decide⟩
  · intro l k hk hnd
    have hfl : (createBatchesByCount l k).flatten = l := createBatchesByCount_flatten l k hk
    have hbn : (createBatchesByCount l k).flatten.Nodup := by rw [hfl]; exact hnd
    exact (List.nodup_flatten.mp hbn).2
  · exact fun l a b => createBatchesByGreedySize_flatten_perm l a b
  · intro l a b hnd
    have hp := createBatchesByGreedySize_flatten_perm l a b
    have hbn : (createBatchesByGreedySize l a b).flatten.Nodup := hp.nodup_iff.mpr hnd
    exact (List.nodup_flatten.mp hbn).2

/-- Witness for C1: the count-mode and greedy-mode partition facts at a
concrete three-file input, with the hypotheses discharged concretely. -/
theorem batch_partition_modes_witness :
    (1 ≤ 2 ∧ ([(⟨"x", 3⟩ : FileH), ⟨"y", 4⟩, ⟨"z", 5⟩] : List FileH).Nodup) ∧
    (createBatchesByCount [(⟨"x", 3⟩ : FileH), ⟨"y", 4⟩, ⟨"z", 5⟩] 2).flatten =
      [⟨"x", 3⟩, ⟨"y", 4⟩, ⟨"z", 5⟩] ∧
    (createBatchesByCount [(⟨"x", 3⟩ : FileH), ⟨"y", 4⟩, ⟨"z", 5⟩] 2).Pairwise
      List.Disjoint :=
  ⟨⟨by decide, by decide⟩,
   batch_partition_modes.1 [⟨"x", 3⟩, ⟨"y", 4⟩, ⟨"z", 5⟩] 2 (by decide),
   batch_partition_modes.2.1 [⟨"x", 3⟩, ⟨"y", 4⟩, ⟨"z", 5⟩] 2 (by decide) (by decide)⟩

/-- C2 counterexample: the claim fails on the code in both cited modes.
Balanced mode never consults the byte budget: two 2048-byte files with
max_files_per_batch = 2 land in one batch of 4096 bytes, far above a
1 KB budget, and that batch is not a singleton.  Greedy-size mode also
produces an over-budget batch outside the claim's exception: a single
2048-byte file with budget 1 KB and large-file threshold 10 KB is below
the large-file threshold, yet its (singleton) batch exceeds the budget. -/
theorem batch_budget_counterexample :
    (createBalancedBatches [(⟨"g1.txt", 2048⟩ : FileH), ⟨"g2.txt", 2048⟩] 2) =
      [[⟨"g1.txt", 2048⟩, ⟨"g2.txt", 2048⟩]] ∧
    batchTotal [(⟨"g1.txt", 2048⟩ : FileH), ⟨"g2.txt", 2048⟩] = 4096 ∧
    1 * 1024 < 4096 ∧
    ([(⟨"g1.txt", 2048⟩ : FileH), ⟨"g2.txt", 2048⟩] : List FileH).length ≠ 1 ∧
    (createBatchesByGreedySize [(⟨"g3.txt", 2048⟩ : FileH)] 1 10) =
      [[⟨"g3.txt", 2048⟩]] ∧
    2048 < 10 * 1024 ∧ 1 * 1024 < batchTotal [(⟨"g3.txt", 2048⟩ : FileH)] := by
  decide

/-- C2 (amended): in greedy-size mode every returned batch either fits
the max-batch-byte budget or is a singleton (a file larger than the
budget always ends up alone, whether or not it reaches the large-file
threshold); balanced mode does not enforce the byte budget at all. -/
theorem greedy_budget_or_singleton (fileList : List FileH)
    (maxKb largeKb : Nat) (b : List FileH)
    (hb : b ∈ createBatchesByGreedySize fileList maxKb largeKb) :
    batchTotal b ≤ maxKb * 1024 ∨ b.length = 1 :=
  createBatchesByGreedySize_budget fileList maxKb largeKb b hb

/-- Witness for the amended C2 at a concrete input. -/
theorem greedy_budget_or_singleton_witness :
    ([(⟨"g3.txt", 2048⟩ : FileH)] ∈
        createBatchesByGreedySize [(⟨"g3.txt", 2048⟩ : FileH)] 1 10) ∧
    (batchTotal [(⟨"g3.txt", 2048⟩ : FileH)] ≤ 1 * 1024 ∨
      ([(⟨"g3.txt", 2048⟩ : FileH)] : List FileH).length = 1) :=
  ⟨by decide, greedy_budget_or_singleton [⟨"g3.txt", 2048⟩] 1 10 [⟨"g3.txt", 2048⟩] (by decide)⟩

/-- C3 counterexample: the worst-fit-decreasing max-spread bound does not
hold for all inputs.  For sizes [12, 9, 8, 7, 2, 1] with
max_files_per_batch = 2 the code returns batch totals [1, 15, 12]
(losing the 9+2 bin to the missing push-back), so the spread is
15 - 1 = 14, strictly larger than the largest input file (12).  (Even
without the lost bin the totals would be 12, 15, 11, 1 with the same
spread 14: the bound is false for the capped algorithm as such.) -/
theorem balanced_spread_counterexample :
    (createBalancedBatches [(⟨"s1", 12⟩ : FileH), ⟨"s2", 9⟩, ⟨"s3", 8⟩,
        ⟨"s4", 7⟩, ⟨"s5", 2⟩, ⟨"s6", 1⟩] 2).map batchTotal = [1, 15, 12] ∧
    ([(⟨"s1", 12⟩ : FileH), ⟨"s2", 9⟩, ⟨"s3", 8⟩, ⟨"s4", 7⟩, ⟨"s5", 2⟩,
        ⟨"s6", 1⟩] : List FileH).map FileH.size = [12, 9, 8, 7, 2, 1] ∧
    (15 - 1 : Nat) = 14 ∧ 12 < 14 := by
  decide

/-- C3 (amended): the concrete scenario from the specification holds:
for files of sizes [10, 1, 1, 1, 1] with max_files_per_batch = 2 the
balanced mode produces batch totals 2, 10 and 2 (the multiset
\x7b10, 2, 2\x7d), and the spread 10 - 2 = 8 is at most the largest file
size 10.  The general max-spread bound of the claim fails on other
inputs. -/
theorem balanced_concrete_scenario :
    (createBalancedBatches [(⟨"w1", 10⟩ : FileH), ⟨"w2", 1⟩, ⟨"w3", 1⟩,
        ⟨"w4", 1⟩, ⟨"w5", 1⟩] 2).map batchTotal = [2, 10, 2] ∧
    (10 - 2 : Nat) ≤ 10 := by
  decide

/-- C4 counterexample: only greedy-size mode isolates oversized files.
With both thresholds configured at 1 KB, a 1 MB file is grouped together
with another file both by count mode (which never reads sizes) and by
balanced mode (which only respects the file-count cap). -/
theorem isolation_counterexample :
    (createBatchesByCount [(⟨"big.vtt", 1048576⟩ : FileH), ⟨"tiny.vtt", 1⟩] 2) =
      [[⟨"big.vtt", 1048576⟩, ⟨"tiny.vtt", 1⟩]] ∧
    (createBalancedBatches [(⟨"big.vtt", 1048576⟩ : FileH), ⟨"tiny.vtt", 1⟩] 2) =
      [[⟨"big.vtt", 1048576⟩, ⟨"tiny.vtt", 1⟩]] ∧
    1 * 1024 < 1048576 := by
  decide

/-- C4 (amended): in greedy-size mode, a file whose size is at or above
the large-file threshold is always placed in a singleton batch
containing only that file; count mode and balanced mode do not isolate
oversized files. -/
theorem greedy_isolates_large_files (fileList : List FileH)
    (maxKb largeKb : Nat) (p : FileH)
    (hp : p ∈ fileList) (hl : largeKb * 1024 ≤ p.size) :
    [p] ∈ createBatchesByGreedySize fileList maxKb largeKb ∧
      ∀ b ∈ createBatchesByGreedySize fileList maxKb largeKb, p ∈ b → b = [p] :=
  createBatchesByGreedySize_isolates fileList maxKb largeKb p hp hl

/-- Witness for the amended C4 at a concrete input. -/
theorem greedy_isolates_large_files_witness :
    ((⟨"big.vtt", 4096⟩ : FileH) ∈
        ([(⟨"big.vtt", 4096⟩ : FileH), ⟨"sm.vtt", 1⟩] : List FileH) ∧
      2 * 1024 ≤ 4096) ∧
    [(⟨"big.vtt", 4096⟩ : FileH)] ∈
      createBatchesByGreedySize [(⟨"big.vtt", 4096⟩ : FileH), ⟨"sm.vtt", 1⟩] 1 2 :=
  ⟨⟨by decide, by decide⟩,
   (greedy_isolates_large_files [⟨"big.vtt", 4096⟩, ⟨"sm.vtt", 1⟩] 1 2
     ⟨"big.vtt", 4096⟩ (by decide) (by decide)).1⟩

/-- C5 counterexample: with batch size 1 (allowed by the claim, which
only requires it to be ≥ 1) a round maps two files to two single-file
batches and hence two output files: the file count never decreases and
the reduction loop never terminates.  The model witnesses this by
running out of any amount of fuel instead of exiting. -/
theorem batchsize_one_no_reduction :
    (createBatchesByCount [(⟨"a.txt", 5⟩ : FileH), ⟨"b.txt", 5⟩] 1).length = 2 ∧
    mainLoopC 1 false (fun _ _ => true) 9 [("a.txt"), ("b.txt")] [] 1 = .outOfFuel :=
  ⟨by decide, mainLoop_stuck_at_two (fun _ _ => true) (fun _ _ => rfl) 9 _ [] 1 rfl⟩

/-- C5 (amended): for count mode with batch size ≥ 2 the reduction
terminates: a round over at least two files strictly reduces the file
count, and the loop, given fuel equal to the initial file count, exits
with exactly one file (for a single initial file it exits immediately).
For batch size 1 the claim fails, see the counterexample. -/
theorem count_reduction_terminates :
    (∀ (l : List FileH) (k : Nat), 2 ≤ k → 2 ≤ l.length →
      (createBatchesByCount l k).length < l.length) ∧
    (∀ (k : Nat) (resume : Bool) (succ : Nat → Nat → Bool) (files fs : List String),
      2 ≤ k → 1 ≤ files.length → (∀ r i, succ r i = true) →
      ∃ f rc, mainLoopC k resume succ files.length files fs 1 = .exited f rc ∧
        f.length = 1) := by
  refine ⟨fun l k hk hl => createBatchesByCount_length_lt l k hk hl, ?_⟩
  intro k resume succ files fs hk h1 hs
  obtain ⟨f, rc, hml, hf, _, _⟩ :=
    mainLoop_succeeds k resume succ hk hs files.length files fs 1 h1 (Nat.le_refl _)
  exact ⟨f, rc, hml, hf⟩

/-- Witness for the amended C5: strict decrease at a concrete three-file
round, and termination of a concrete four-file pipeline. -/
theorem count_reduction_terminates_witness :
    ((createBatchesByCount [(⟨"p", 1⟩ : FileH), ⟨"q", 1⟩, ⟨"r", 1⟩] 2).length <
      ([(⟨"p", 1⟩ : FileH), ⟨"q", 1⟩, ⟨"r", 1⟩] : List FileH).length) ∧
    (∃ f rc, mainLoopC 3 false (fun _ _ => true)
        ([("a"), ("b"), ("c"), ("d")] : List String).length
        [("a"), ("b"), ("c"), ("d")] [] 1 = .exited f rc ∧ f.length = 1) :=
  ⟨count_reduction_terminates.1 [⟨"p", 1⟩, ⟨"q", 1⟩, ⟨"r", 1⟩] 2 (by decide) (by decide),
   count_reduction_terminates.2 3 false (fun _ _ => true)
     [("a"), ("b"), ("c"), ("d")] [] (by decide) (by decide) (fun _ _ => rfl)⟩

/-- C6: resume is idempotent.  If a run of the round executor (any resume
setting, any completion order of the submitted batches) fully succeeds,
then a second run over the same n batches with resume enabled, against the
file system the first run left behind, submits nothing (its completion
order is forced empty), performs zero external calls, and returns exactly
the same artifact list. -/
theorem resume_second_run_idempotent
    (resume₁ : Bool) (succ₁ succ₂ : Nat → Bool) (r n : Nat)
    (fs : List String) (order₁ order₂ : List Nat)
    (h₁ : order₁.Perm (submittedIdx resume₁ r n fs))
    (hs : ∀ i ∈ order₁, succ₁ i = true)
    (h₂ : order₂.Perm (submittedIdx true r n
      (runDistillationRound resume₁ succ₁ r n fs order₁).2.1)) :
    (runDistillationRound true succ₂ r n
        (runDistillationRound resume₁ succ₁ r n fs order₁).2.1 order₂).2.2 = 0 ∧
    (runDistillationRound true succ₂ r n
        (runDistillationRound resume₁ succ₁ r n fs order₁).2.1 order₂).1 =
      (runDistillationRound resume₁ succ₁ r n fs order₁).1 := by
  have hrun1 := runRound_success resume₁ succ₁ r n fs order₁ hs
  have hfs1 : (runDistillationRound resume₁ succ₁ r n fs order₁).2.1 =
      fs ++ order₁.map (fun i => artifactName r (i + 1)) := by rw [hrun1]
  have hall : ∀ i ∈ List.range n,
      (fs ++ order₁.map (fun i => artifactName r (i + 1))).contains
        (artifactName r (i + 1)) = true := by
    intro i hi
    have hmem := names_in_fs_after resume₁ r n fs i hi
    have hperm' : ((submittedIdx resume₁ r n fs).map
        (fun i => artifactName r (i + 1))).Perm
          (order₁.map (fun i => artifactName r (i + 1))) := (h₁.map _).symm
    refine List.elem_iff.mpr ?_
    rcases List.mem_append.mp hmem with h | h
    · exact List.mem_append.mpr (Or.inl h)
    · exact List.mem_append.mpr (Or.inr (hperm'.mem_iff.mp h))
  have hsub : submittedIdx true r n
      (fs ++ order₁.map (fun i => artifactName r (i + 1))) = [] :=
    submitted_after_success r n _ hall
  have horder₂ : order₂ = [] := by
    rw [hfs1, hsub] at h₂
    exact List.perm_nil.mp h₂
  subst horder₂
  have hrun2 := runRound_success true succ₂ r n
    (fs ++ order₁.map (fun i => artifactName r (i + 1))) []
    (by intro i hi; simp at hi)
  constructor
  · rw [hfs1, hrun2]
    rfl
  · rw [hfs1, hrun2, hrun1]
    refine congrArg some ?_
    rw [skipped_after_success r n _ hall]
    simp only [List.map_nil, List.append_nil]
    have p1 := skipped_submitted_perm resume₁ r n fs
    have p3 : (skippedNames resume₁ r n fs ++
        order₁.map (fun i => artifactName r (i + 1))).Perm
          (skippedNames resume₁ r n fs ++
            (submittedIdx resume₁ r n fs).map (fun i => artifactName r (i + 1))) :=
      List.Perm.append_left _ (h₁.map _)
    exact sortedByName_eq_of_perm (p3.trans p1).symm

/-- Witness for C6 at a concrete two-batch round with empty starting file
system: the first run submits batches 0 and 1 and succeeds; the second
run has an empty submission list, makes zero calls and returns the same
artifact list. -/
theorem resume_second_run_idempotent_witness :
    (([0, 1] : List Nat).Perm (submittedIdx false 1 2 []) ∧
      (([] : List Nat)).Perm (submittedIdx true 1 2
        (runDistillationRound false (fun _ => true) 1 2 [] [0, 1]).2.1)) ∧
    (runDistillationRound true (fun _ => true) 1 2
        (runDistillationRound false (fun _ => true) 1 2 [] [0, 1]).2.1 []).2.2 = 0 ∧
    (runDistillationRound true (fun _ => true) 1 2
        (runDistillationRound false (fun _ => true) 1 2 [] [0, 1]).2.1 []).1 =
      (runDistillationRound false (fun _ => true) 1 2 [] [0, 1]).1 := by
  have he : submittedIdx false 1 2 [] = [0, 1] := by decide
  have h₁ : ([0, 1] : List Nat).Perm (submittedIdx false 1 2 []) := by rw [he]
  have he2 : submittedIdx true 1 2
      (runDistillationRound false (fun _ => true) 1 2 [] [0, 1]).2.1 = [] := by decide
  have h₂ : (([] : List Nat)).Perm (submittedIdx true 1 2
      (runDistillationRound false (fun _ => true) 1 2 [] [0, 1]).2.1) := by rw [he2]
  exact ⟨⟨h₁, h₂⟩, resume_second_run_idempotent false (fun _ => true) (fun _ => true)
    1 2 [] [0, 1] [] h₁ (fun i _ => rfl) h₂⟩

/-- C7: a failing batch aborts the round and the pipeline.  First part:
if the batches completed before some batch i all succeeded and batch i's
external call fails, the round executor returns None (no partial artifact
list) together with exactly the calls made so far — the queued remainder
of the completion order triggers no further external calls.  Second
part: when round 1 returns None, the pipeline invocation ends in the
aborted state and never reaches the final-move phase. -/
theorem round_failure_aborts_pipeline :
    (∀ (resume : Bool) (succ : Nat → Bool) (r n : Nat) (fs : List String)
        (o₁ : List Nat) (i : Nat) (o₂ : List Nat),
      (∀ j ∈ o₁, succ j = true) → succ i = false →
      runDistillationRound resume succ r n fs (o₁ ++ i :: o₂) =
        (none, fs ++ o₁.map (fun j => artifactName r (j + 1)), o₁.length + 1)) ∧
    (∀ (k : Nat) (resume : Bool) (succ : Nat → Nat → Bool) (fuel : Nat)
        (files fs : List String),
      2 ≤ files.length →
      (runDistillationRound resume (succ 1) 1
          ((createBatchesByCount (files.map (fun s => (⟨s, 0⟩ : FileH))) k).length) fs
          (submittedIdx resume 1
            ((createBatchesByCount (files.map (fun s => (⟨s, 0⟩ : FileH))) k).length)
            fs)).1 = none →
      distillMain k resume succ (fuel + 1) files fs = .abortedRun) := by
  constructor
  · intro resume succ r n fs o₁ i o₂ hsucc hfail
    rw [runDistillationRound, execPhase_failure succ r o₁ i o₂ fs _ 0 hsucc hfail]
    simp
  · intro k resume succ fuel files fs hlen hnone
    rcases htriple : runDistillationRound resume (succ 1) 1
        ((createBatchesByCount (files.map (fun s => (⟨s, 0⟩ : FileH))) k).length) fs
        (submittedIdx resume 1
          ((createBatchesByCount (files.map (fun s => (⟨s, 0⟩ : FileH))) k).length)
          fs) with ⟨res, fs', calls⟩
    rw [htriple] at hnone
    have hres : res = none := hnone
    subst hres
    simp only [distillMain, mainLoopC]
    rw [if_neg (by omega : ¬ files.length ≤ 1), htriple]

/-- Witness for C7: a concrete failing round (batch 1 fails after batch 0
succeeded, batch 2 still queued) and a concrete aborted pipeline. -/
theorem round_failure_aborts_pipeline_witness :
    (((fun j => decide (j = 0)) 1 = false) ∧
      runDistillationRound false (fun j => decide (j = 0)) 1 3 [] ([0] ++ 1 :: [2]) =
        (none, [] ++ [0].map (fun j => artifactName 1 (j + 1)), [0].length + 1)) ∧
    distillMain 2 false (fun _ _ => false) (0 + 1) [("a.txt"), ("b.txt")] [] =
      .abortedRun :=
  ⟨⟨by decide,
    round_failure_aborts_pipeline.1 false (fun j => decide (j = 0)) 1 3 [] [0] 1 [2]
      (by decide) (by decide)⟩,
   round_failure_aborts_pipeline.2 2 false (fun _ _ => false) 0 [("a.txt"), ("b.txt")] []
     (by decide) (by decide)⟩

/-- C8: for a round in which every submitted batch succeeds, the returned
artifact list does not depend on the order in which the workers complete
(any two completion orders give the same list), and it is sorted by
artifact filename. -/
theorem round_output_schedule_independent
    (resume : Bool) (succ : Nat → Bool) (r n : Nat) (fs : List String)
    (order₁ order₂ : List Nat)
    (h₁ : order₁.Perm (submittedIdx resume r n fs))
    (h₂ : order₂.Perm (submittedIdx resume r n fs))
    (hs : ∀ i ∈ submittedIdx resume r n fs, succ i = true) :
    (runDistillationRound resume succ r n fs order₁).1 =
      (runDistillationRound resume succ r n fs order₂).1 ∧
    ∃ outs, (runDistillationRound resume succ r n fs order₁).1 = some outs ∧
      outs.Sorted (fun a b : String => a ≤ b) := by
  have hs₁ : ∀ i ∈ order₁, succ i = true := fun i hi => hs i (h₁.mem_iff.mp hi)
  have hs₂ : ∀ i ∈ order₂, succ i = true := fun i hi => hs i (h₂.mem_iff.mp hi)
  rw [runRound_success resume succ r n fs order₁ hs₁,
    runRound_success resume succ r n fs order₂ hs₂]
  refine ⟨congrArg some ?_, _, rfl, sortedByName_sorted _⟩
  exact sortedByName_eq_of_perm
    (List.Perm.append_left _ ((h₁.map _).trans (h₂.map _).symm))

/-- Witness for C8 at a concrete two-batch round with the two possible
completion orders. -/
theorem round_output_schedule_independent_witness :
    (([0, 1] : List Nat).Perm (submittedIdx false 1 2 []) ∧
      ([1, 0] : List Nat).Perm (submittedIdx false 1 2 [])) ∧
    (runDistillationRound false (fun _ => true) 1 2 [] [0, 1]).1 =
      (runDistillationRound false (fun _ => true) 1 2 [] [1, 0]).1 ∧
    (∃ outs, (runDistillationRound false (fun _ => true) 1 2 [] [0, 1]).1 = some outs ∧
      outs.Sorted (fun a b : String => a ≤ b)) := by
  have he : submittedIdx false 1 2 [] = [0, 1] := by decide
  have h₁ : ([0, 1] : List Nat).Perm (submittedIdx false 1 2 []) := by rw [he]
  have h₂ : ([1, 0] : List Nat).Perm (submittedIdx false 1 2 []) := by
    rw [he]
    exact List.Perm.swap 0 1 []
  obtain ⟨ha, hb⟩ := round_output_schedule_independent false (fun _ => true) 1 2 []
    [0, 1] [1, 0] h₁ h₂ (fun i _ => rfl)
  exact ⟨⟨h₁, h₂⟩, ha, hb⟩

/-- C9 counterexample: when the initial input is already a single file,
the loop never runs (round_count stays 1) and main takes the
round_count == 1 informational branch: nothing is moved to the final
summary name, contradicting the claim's trivial case. -/
theorem single_file_no_final_move :
    distillMain 3 false (fun _ _ => true) 5 [("only.txt")] [] =
      MainResult.singleNoMove := by
  decide

/-- C9 (amended): a run that ends successfully after at least one
reduction round (at least two initial files, count mode with batch size
≥ 2, every batch succeeding) moves the sole surviving file to
ULTRA_DISTILLED_SUMMARY.txt; but a run whose initial input is a single
file performs no reduction round and no move (informational message
only). -/
theorem final_move_after_rounds :
    (∀ (k : Nat) (resume : Bool) (succ : Nat → Nat → Bool) (files fs : List String),
      2 ≤ k → 2 ≤ files.length → (∀ r i, succ r i = true) →
      distillMain k resume succ files.length files fs = .movedFinal finalName) ∧
    (∀ (k : Nat) (resume : Bool) (succ : Nat → Nat → Bool) (fuel : Nat)
        (files fs : List String),
      files.length = 1 →
      distillMain k resume succ (fuel + 1) files fs = .singleNoMove) := by
  constructor
  · intro k resume succ files fs hk hf hs
    obtain ⟨f, rc, hml, h1, _, h3⟩ :=
      mainLoop_succeeds k resume succ hk hs files.length files fs 1 (by omega)
        (Nat.le_refl _)
    have hrc : 1 < rc := h3 hf
    simp only [distillMain, hml]
    simp [finalPhase, h1, hrc]
  · intro k resume succ fuel files fs h1
    simp only [distillMain, mainLoopC]
    rw [if_pos (by omega : files.length ≤ 1)]
    simp [finalPhase, h1]

/-- Witness for the amended C9: a two-file pipeline ends with the final
move; a single-file pipeline ends with no move. -/
theorem final_move_after_rounds_witness :
    (2 ≤ 2 ∧ 2 ≤ ([("a.vtt"), ("b.vtt")] : List String).length) ∧
    distillMain 2 false (fun _ _ => true)
      ([("a.vtt"), ("b.vtt")] : List String).length [("a.vtt"), ("b.vtt")] [] =
      .movedFinal finalName ∧
    distillMain 2 false (fun _ _ => true) (4 + 1) [("solo.vtt")] [] = .singleNoMove :=
  ⟨⟨by decide, by decide⟩,
   final_move_after_rounds.1 2 false (fun _ _ => true) [("a.vtt"), ("b.vtt")] []
     (by decide) (by decide) (fun _ _ => rfl),
   final_move_after_rounds.2 2 false (fun _ _ => true) 4 [("solo.vtt")] [] (by decide)⟩

/-- C10: output-directory preparation.  With --resume the file system is
left untouched; without it every file under the output directory tree is
deleted (the tree is recreated empty); and in both cases any file not
under the output tree — in particular everything in the source
directory, as long as it is not inside the output directory — is
preserved exactly. -/
theorem output_dir_preparation_frame :
    (∀ (out : List String) (fs : List FsFile), prepareOutputDir true out fs = fs) ∧
    (∀ (out : List String) (fs : List FsFile) (e : FsFile),
      e ∈ prepareOutputDir false out fs → out.isPrefixOf e.fpath = false) ∧
    (∀ (resume : Bool) (out : List String) (fs : List FsFile) (e : FsFile),
      out.isPrefixOf e.fpath = false →
      (e ∈ prepareOutputDir resume out fs ↔ e ∈ fs)) := by
  refine ⟨fun out fs => rfl, ?_, ?_⟩
  · intro out fs e he
    have := (List.mem_filter.mp he).2
    simpa using this
  · intro resume out fs e hpre
    cases resume
    · constructor
      · intro he
        exact (List.mem_filter.mp he).1
      · intro he
        exact List.mem_filter.mpr ⟨he, by simp [hpre]⟩
    · exact Iff.rfl

/-- Witness for C10: a concrete file system with one file under the
output directory and one source file; without resume the source file
survives the preparation. -/
theorem output_dir_preparation_frame_witness :
    (([("out")] : List String).isPrefixOf [("src"), ("a.vtt")] = false) ∧
    (⟨[("src"), ("a.vtt")], ("x")⟩ : FsFile) ∈
      prepareOutputDir false [("out")]
        [⟨[("out"), ("r1.txt")], ("y")⟩, ⟨[("src"), ("a.vtt")], ("x")⟩] ∧
    prepareOutputDir true [("out")] [⟨[("out"), ("r1.txt")], ("y")⟩] =
      [⟨[("out"), ("r1.txt")], ("y")⟩] :=
  ⟨by decide,
   (output_dir_preparation_frame.2.2 false [("out")]
     [⟨[("out"), ("r1.txt")], ("y")⟩, ⟨[("src"), ("a.vtt")], ("x")⟩]
     ⟨[("src"), ("a.vtt")], ("x")⟩ (by decide)).mpr (by decide),
   output_dir_preparation_frame.1 [("out")] [⟨[("out"), ("r1.txt")], ("y")⟩]⟩

end Claims

end Distill
